import Mathlib

/-!
Verification of the page-selection resolver of the pdftrim repository.

The resolver lives in `src/core/page_spec.py`; the guard refusing to
produce an empty output document lives in `src/core/pdf_processor.py`.
Python strings are modelled as `String` / `List Char`, Python `int` as
`Int`, and a raised `PageSpecError` as the `.error` branch of
`Except String`.
-/

/-- Python `str.strip()` on the character list of a string. -/
def pyStripL (cs : List Char) : List Char :=
  ((cs.dropWhile Char.isWhitespace).reverse.dropWhile Char.isWhitespace).reverse

/-- Python `s.split(sep)` for a one-character separator: `"".split(",") = [""]`,
`"a,,b".split(",") = ["a", "", "b"]`. -/
def splitOnChar (sep : Char) : List Char → List (List Char)
  | [] => [[]]
  | c :: cs =>
    if c = sep then [] :: splitOnChar sep cs
    else
      match splitOnChar sep cs with
      | [] => [[c]]
      | r :: rs => (c :: r) :: rs

/-- The numeric value of a decimal digit string, as Python `int(token)`
computes it for a token that passed `isdigit()`. -/
def digitsVal (cs : List Char) : Nat :=
  cs.foldl (fun acc c => acc * 10 + (c.toNat - 48)) 0

/-- Python `range(a, b)` (ascending, step 1) over integers. -/
def pyRangeUp (a b : Int) : List Int :=
  (List.range (b - a).toNat).map (fun (k : Nat) => a + (k : Int))

/-- Python `range(a, b, -1)` (descending, step -1) over integers. -/
def pyRangeDown (a b : Int) : List Int :=
  (List.range (a - b).toNat).map (fun (k : Nat) => a - (k : Int))

/-- Python `set.add`: the accumulator keeps each element once. -/
def set_add (acc : List Int) (x : Int) : List Int :=
  if x ∈ acc then acc else x :: acc

/-- Python `sorted(l, reverse=True)`: sort ascending, then reverse. -/
def sorted_desc (l : List Int) : List Int :=
  (List.insertionSort (· ≤ ·) l).reverse

/-- `_require_page_count` from `src/core/page_spec.py`. -/
def require_page_count (page_count : Int) : Except String Unit :=
  if page_count < 0 then .error "page_count must be >= 0" else .ok ()

/-- `_parse_positive_int` from `src/core/page_spec.py`. -/
def parse_positive_int (token0 : List Char) (what : String) : Except String Int :=
  if (pyStripL token0).isEmpty then .error ("Empty " ++ what)
  else if !(pyStripL token0).all Char.isDigit then
    .error ("Invalid " ++ what ++ ": '" ++ String.mk (pyStripL token0) ++ "'")
  else if (digitsVal (pyStripL token0) : Int) < 1 then .error (what ++ " must be >= 1")
  else .ok (digitsVal (pyStripL token0) : Int)

/-- The body of the `for raw_item in spec.split(",")` loop of
`parse_delete_spec`: the 0-based indices a single item contributes,
or the error it raises. -/
def parse_item_indices (raw_item : List Char) (page_count : Int) : Except String (List Int) :=
  if (pyStripL raw_item).isEmpty then .error "Invalid delete specification: empty item"
  else if '-' ∈ pyStripL raw_item then
    match splitOnChar '-' (pyStripL raw_item) with
    | [part0, part1] =>
      match parse_positive_int part0 "range start" with
      | .error e => .error e
      | .ok start_1 =>
        match parse_positive_int part1 "range end" with
        | .error e => .error e
        | .ok end_1 =>
          if end_1 < start_1 then
            .error ("Invalid range '" ++ String.mk (pyStripL raw_item) ++ "': end < start")
          else if start_1 > page_count ∨ end_1 > page_count then
            .error ("Range '" ++ String.mk (pyStripL raw_item) ++
              "' out of bounds (document has " ++ toString page_count ++ " pages)")
          else
            .ok ((pyRangeUp start_1 (end_1 + 1)).map (fun page_1 => page_1 - 1))
    | _ => .error ("Invalid range token: '" ++ String.mk (pyStripL raw_item) ++ "'")
  else
    match parse_positive_int (pyStripL raw_item) "page number" with
    | .error e => .error e
    | .ok page_1 =>
      if page_1 > page_count then
        .error ("Page " ++ toString page_1 ++ " out of bounds (document has " ++
          toString page_count ++ " pages)")
      else .ok [page_1 - 1]

/-- The accumulation loop of `parse_delete_spec`: fold every item's
contributed indices into the `indices` set, stopping at the first error. -/
def parse_items (page_count : Int) : List (List Char) → List Int → Except String (List Int)
  | [], acc => .ok acc
  | item :: rest, acc =>
    match parse_item_indices item page_count with
    | .error e => .error e
    | .ok xs => parse_items page_count rest (xs.foldl set_add acc)

/-- `DeleteSpecResult` from `src/core/page_spec.py`. -/
structure DeleteSpecResult where
  indices_0_based_desc : List Int
deriving DecidableEq, Repr

/-- `DeleteSpecResult.count`. -/
def DeleteSpecResult.count (r : DeleteSpecResult) : Nat :=
  r.indices_0_based_desc.length

/-- `DeleteSpecResult.as_1_based_sorted`. -/
def DeleteSpecResult.as_1_based_sorted (r : DeleteSpecResult) : List Int :=
  List.insertionSort (· ≤ ·) (r.indices_0_based_desc.map (· + 1))

/-- `parse_delete_spec` from `src/core/page_spec.py`. -/
def parse_delete_spec (spec0 : String) (page_count : Int) : Except String DeleteSpecResult :=
  match require_page_count page_count with
  | .error e => .error e
  | .ok _ =>
    if (pyStripL spec0.data).isEmpty then .error "Delete specification cannot be empty"
    else if page_count = 0 then .error "Cannot delete pages from an empty document"
    else
      match parse_items page_count (splitOnChar ',' (pyStripL spec0.data)) [] with
      | .error e => .error e
      | .ok indices => .ok ⟨sorted_desc indices⟩

/-- `compute_indices_to_delete` from `src/core/page_spec.py`. -/
def compute_indices_to_delete (spec : String) (page_count : Int) (invert_selection : Bool) :
    Except String (List Int × Option (List Int)) :=
  match parse_delete_spec spec page_count with
  | .error e => .error e
  | .ok parsed =>
    if !invert_selection then .ok (parsed.indices_0_based_desc, none)
    else
      .ok ((pyRangeDown (page_count - 1) (-1)).filter
             (fun i => !(decide (i ∈ parsed.indices_0_based_desc))),
           some parsed.indices_0_based_desc)

/-- `indices_before_page` from `src/core/page_spec.py`. -/
def indices_before_page (before_page_1_based : Int) (page_count : Int) :
    Except String (List Int) :=
  match require_page_count page_count with
  | .error e => .error e
  | .ok _ =>
    if page_count = 0 then .ok []
    else if before_page_1_based < 1 then .error "before page must be >= 1"
    else if before_page_1_based > page_count + 1 then
      .error ("before page " ++ toString before_page_1_based ++
        " out of bounds (document has " ++ toString page_count ++ " pages)")
    else
      .ok (pyRangeDown (min (before_page_1_based - 1) page_count - 1) (-1))

/-- `indices_after_page` from `src/core/page_spec.py`. -/
def indices_after_page (after_page_1_based : Int) (page_count : Int) :
    Except String (List Int) :=
  match require_page_count page_count with
  | .error e => .error e
  | .ok _ =>
    if page_count = 0 then .ok []
    else if after_page_1_based < 1 then .error "after page must be >= 1"
    else if after_page_1_based > page_count then
      .error ("after page " ++ toString after_page_1_based ++
        " out of bounds (document has " ++ toString page_count ++ " pages)")
    else if after_page_1_based ≥ page_count then .ok []
    else .ok (pyRangeDown (page_count - 1) (after_page_1_based - 1))

/-- An observable document operation performed by the processor. -/
inductive PdfOp where
  | delete_page (idx : Int)
  | save
deriving DecidableEq, Repr

/-- Outcome of a processor method: whether the returned `ProcessingResult`
has `success=True`, and the trace of document operations performed. -/
structure ProcResult where
  success : Bool
  ops : List PdfOp
deriving DecidableEq, Repr

/-- `PDFProcessor.process_pdf_delete_pages` from `src/core/pdf_processor.py`,
reduced to its control flow on `page_count` and the resolver output.
Blank-page removal is content-dependent and happens only on the success
path before the save; it is not modelled because no claim depends on it. -/
def process_pdf_delete_pages (page_count : Int) (delete_spec : String)
    (invert_selection : Bool) : ProcResult :=
  match compute_indices_to_delete delete_spec page_count invert_selection with
  | .error _ => ⟨false, []⟩
  | .ok (indices_to_delete, _) =>
    if (indices_to_delete.length : Int) ≥ page_count then ⟨false, []⟩
    else ⟨true, indices_to_delete.map PdfOp.delete_page ++ [PdfOp.save]⟩

/-- The index-set computation inside
`PDFProcessor.process_pdf_delete_before_after` (lines 220-234): union the
before/after index lists into a set, sort descending, complement when
`invert_selection` is set. -/
def before_after_indices (page_count : Int) (before_page after_page : Option Int)
    (invert_selection : Bool) : Except String (List Int) :=
  match (match before_page with
         | some b => indices_before_page b page_count
         | none => .ok []) with
  | .error e => .error e
  | .ok before_list =>
    match (match after_page with
           | some a => indices_after_page a page_count
           | none => .ok []) with
    | .error e => .error e
    | .ok after_list =>
      if invert_selection then
        .ok ((pyRangeDown (page_count - 1) (-1)).filter
          (fun i => !(decide (i ∈ sorted_desc ((before_list ++ after_list).foldl set_add [])))))
      else .ok (sorted_desc ((before_list ++ after_list).foldl set_add []))

/-- `PDFProcessor.process_pdf_delete_before_after` from
`src/core/pdf_processor.py`, reduced to its control flow. Note the guard
is `page_count > 0 and len(indices_to_delete) >= page_count`. -/
def process_pdf_delete_before_after (page_count : Int) (before_page after_page : Option Int)
    (invert_selection : Bool) : ProcResult :=
  match before_after_indices page_count before_page after_page invert_selection with
  | .error _ => ⟨false, []⟩
  | .ok indices_to_delete =>
    if page_count > 0 ∧ (indices_to_delete.length : Int) ≥ page_count then ⟨false, []⟩
    else ⟨true, indices_to_delete.map PdfOp.delete_page ++ [PdfOp.save]⟩

/-! ### Membership and ordering facts about the helpers -/

theorem mem_pyRangeUp {i a b : Int} : i ∈ pyRangeUp a b ↔ a ≤ i ∧ i < b := by
  simp only [pyRangeUp, List.mem_map, List.mem_range]
  constructor
  · rintro ⟨k, hk, rfl⟩
    omega
  · rintro ⟨h1, h2⟩
    exact ⟨(i - a).toNat, by omega, by omega⟩

theorem mem_pyRangeDown {i a b : Int} : i ∈ pyRangeDown a b ↔ b < i ∧ i ≤ a := by
  simp only [pyRangeDown, List.mem_map, List.mem_range]
  constructor
  · rintro ⟨k, hk, rfl⟩
    omega
  · rintro ⟨h1, h2⟩
    exact ⟨(a - i).toNat, by omega, by omega⟩

theorem mem_set_add {acc : List Int} {x y : Int} :
    y ∈ set_add acc x ↔ y = x ∨ y ∈ acc := by
  unfold set_add
  split
  · rename_i hx
    constructor
    · exact Or.inr
    · rintro (rfl | h)
      · exact hx
      · exact h
  · exact List.mem_cons

theorem nodup_set_add {acc : List Int} {x : Int} (h : acc.Nodup) :
    (set_add acc x).Nodup := by
  unfold set_add
  split
  · exact h
  · rename_i hx
    exact List.nodup_cons.mpr ⟨hx, h⟩

theorem mem_foldl_set_add (xs : List Int) :
    ∀ (acc : List Int) (y : Int), y ∈ xs.foldl set_add acc ↔ y ∈ acc ∨ y ∈ xs := by
  induction xs with
  | nil => simp
  | cons x xs ih =>
    intro acc y
    simp only [List.foldl_cons, ih, mem_set_add, List.mem_cons]
    tauto

theorem nodup_foldl_set_add (xs : List Int) :
    ∀ acc : List Int, acc.Nodup → (xs.foldl set_add acc).Nodup := by
  induction xs with
  | nil => exact fun _ h => h
  | cons x xs ih => exact fun acc h => ih _ (nodup_set_add h)

theorem mem_sorted_desc {l : List Int} {i : Int} : i ∈ sorted_desc l ↔ i ∈ l := by
  unfold sorted_desc
  rw [List.mem_reverse]
  exact (List.perm_insertionSort _ l).mem_iff

theorem nodup_sorted_desc {l : List Int} (h : l.Nodup) : (sorted_desc l).Nodup := by
  unfold sorted_desc
  rw [List.nodup_reverse]
  exact ((List.perm_insertionSort _ l).nodup_iff).mpr h

theorem sorted_desc_strict {l : List Int} (h : l.Nodup) :
    List.Sorted (· > ·) (sorted_desc l) := by
  have hs : List.Sorted (· ≤ ·) (List.insertionSort (· ≤ ·) l) :=
    List.sorted_insertionSort _ l
  have hn : (sorted_desc l).Nodup := nodup_sorted_desc h
  unfold sorted_desc at hn ⊢
  have hge : (List.insertionSort (· ≤ ·) l).reverse.Pairwise (· ≥ ·) :=
    List.pairwise_reverse.mpr hs
  exact (hge.and hn).imp (fun hp => lt_of_le_of_ne hp.1 (Ne.symm hp.2))

/-! ### Facts about the token parser -/

theorem parse_positive_int_ok {t : List Char} {w : String} {v : Int}
    (h : parse_positive_int t w = .ok v) :
    v = (digitsVal (pyStripL t) : Int) ∧ 1 ≤ v := by
  unfold parse_positive_int at h
  split at h
  · cases h
  · split at h
    · cases h
    · split at h
      · cases h
      · rename_i hlt
        cases h
        exact ⟨rfl, by omega⟩

theorem parse_item_indices_bounds {t : List Char} {pc : Int} {xs : List Int}
    (h : parse_item_indices t pc = .ok xs) :
    ∀ i ∈ xs, 0 ≤ i ∧ i < pc := by
  unfold parse_item_indices at h
  split at h
  · cases h
  · split at h
    · split at h
      · split at h
        · cases h
        · rename_i start_1 hstart
          split at h
          · cases h
          · rename_i end_1 hend
            split at h
            · cases h
            · split at h
              · cases h
              · rename_i hle hbound
                cases h
                intro i hi
                simp only [List.mem_map, mem_pyRangeUp] at hi
                obtain ⟨p, ⟨hp1, hp2⟩, rfl⟩ := hi
                have h1 := parse_positive_int_ok hstart
                have h2 := parse_positive_int_ok hend
                push_neg at hbound
                omega
      · cases h
    · split at h
      · cases h
      · rename_i page_1 hpage
        split at h
        · cases h
        · rename_i hbound
          cases h
          intro i hi
          simp only [List.mem_singleton] at hi
          subst hi
          have h1 := parse_positive_int_ok hpage
          omega

theorem parse_items_ok_mem {pc : Int} (items : List (List Char)) :
    ∀ (acc res : List Int), parse_items pc items acc = .ok res →
      ∀ i ∈ res, i ∈ acc ∨ (0 ≤ i ∧ i < pc) := by
  induction items with
  | nil =>
    intro acc res h i hi
    cases h
    exact Or.inl hi
  | cons t rest ih =>
    intro acc res h i hi
    unfold parse_items at h
    split at h
    · cases h
    · rename_i xs hxs
      rcases ih _ _ h i hi with hmem | hb
      · rw [mem_foldl_set_add] at hmem
        rcases hmem with h1 | h2
        · exact Or.inl h1
        · exact Or.inr (parse_item_indices_bounds hxs i h2)
      · exact Or.inr hb

theorem parse_items_ok_nodup {pc : Int} (items : List (List Char)) :
    ∀ (acc res : List Int), acc.Nodup → parse_items pc items acc = .ok res →
      res.Nodup := by
  induction items with
  | nil =>
    intro acc res hn h
    cases h
    exact hn
  | cons t rest ih =>
    intro acc res hn h
    unfold parse_items at h
    split at h
    · cases h
    · exact ih _ _ (nodup_foldl_set_add _ _ hn) h

theorem parse_delete_spec_ok {spec : String} {pc : Int} {r : DeleteSpecResult}
    (h : parse_delete_spec spec pc = .ok r) :
    r.indices_0_based_desc.Nodup ∧
    List.Sorted (· > ·) r.indices_0_based_desc ∧
    (∀ i ∈ r.indices_0_based_desc, 0 ≤ i ∧ i < pc) ∧ 1 ≤ pc := by
  unfold parse_delete_spec at h
  split at h
  · cases h
  · rename_i u hreq
    have hpc0 : ¬ pc < 0 := by
      unfold require_page_count at hreq
      split at hreq
      · cases hreq
      · assumption
    split at h
    · cases h
    · split at h
      · cases h
      · rename_i hne0
        split at h
        · cases h
        · rename_i indices hind
          cases h
          have hnd : indices.Nodup := parse_items_ok_nodup _ _ _ List.nodup_nil hind
          have hb : ∀ i ∈ indices, 0 ≤ i ∧ i < pc := by
            intro i hi
            rcases parse_items_ok_mem _ _ _ hind i hi with h0 | h1
            · cases h0
            · exact h1
          refine ⟨nodup_sorted_desc hnd, sorted_desc_strict hnd, ?_, by omega⟩
          intro i hi
          exact hb i (mem_sorted_desc.mp hi)

/-- C1: for every specification string and page_count on which
`parse_delete_spec` succeeds, the returned list of 0-based indices is
duplicate-free, sorted strictly descending, and every element lies in
`[0, page_count)`. -/
theorem c1_parse_delete_spec_invariants (spec : String) (page_count : Int)
    (r : DeleteSpecResult) (h : parse_delete_spec spec page_count = .ok r) :
    r.indices_0_based_desc.Nodup ∧
    List.Sorted (· > ·) r.indices_0_based_desc ∧
    ∀ i ∈ r.indices_0_based_desc, 0 ≤ i ∧ i < page_count := by
  obtain ⟨h1, h2, h3, _⟩ := parse_delete_spec_ok h
  exact ⟨h1, h2, h3⟩

/-- Witness for C1 at the spec's own example `parse("1-3,2", page_count=5)`. -/
theorem c1_witness :
    parse_delete_spec "1-3,2" 5 = .ok ⟨[2, 1, 0]⟩ ∧
    (([2, 1, 0] : List Int).Nodup ∧
      List.Sorted (· > ·) ([(2 : Int), 1, 0]) ∧
      ∀ i ∈ ([(2 : Int), 1, 0]), 0 ≤ i ∧ i < 5) := by
  have hp : parse_delete_spec "1-3,2" 5 = .ok ⟨[2, 1, 0]⟩ := by rfl
  exact ⟨hp, c1_parse_delete_spec_invariants "1-3,2" 5 ⟨[2, 1, 0]⟩ hp⟩

/-- C2: with `invert_selection = True`, the returned delete indices and keep
indices are disjoint, their union is exactly `{0, ..., page_count - 1}`, and
the keep indices (the parse of the spec as a delete spec) are returned
descending as the second output element. -/
theorem c2_compute_indices_invert_complement (spec : String) (page_count : Int)
    (del keep : List Int)
    (h : compute_indices_to_delete spec page_count true = .ok (del, some keep)) :
    (∀ i, ¬ (i ∈ del ∧ i ∈ keep)) ∧
    (∀ i, (i ∈ del ∨ i ∈ keep) ↔ (0 ≤ i ∧ i < page_count)) ∧
    (∃ r, parse_delete_spec spec page_count = .ok r ∧ keep = r.indices_0_based_desc) ∧
    List.Sorted (· > ·) keep := by
  unfold compute_indices_to_delete at h
  split at h
  · cases h
  · rename_i parsed hp
    simp only [Bool.not_true, Bool.false_eq_true, if_false, Except.ok.injEq, Prod.mk.injEq,
      Option.some.injEq] at h
    obtain ⟨hdel, hkeep⟩ := h
    obtain ⟨hnd, hsorted, hbounds, hpc⟩ := parse_delete_spec_ok hp
    subst hkeep
    subst hdel
    refine ⟨?_, ?_, ⟨parsed, hp, rfl⟩, hsorted⟩
    · rintro i ⟨hid, hik⟩
      rw [List.mem_filter] at hid
      simp only [Bool.not_eq_true', decide_eq_false_iff_not] at hid
      exact hid.2 hik
    · intro i
      constructor
      · rintro (hid | hik)
        · rw [List.mem_filter, mem_pyRangeDown] at hid
          exact ⟨by omega, by omega⟩
        · exact hbounds i hik
      · intro hi
        by_cases hik : i ∈ parsed.indices_0_based_desc
        · exact Or.inr hik
        · refine Or.inl ?_
          rw [List.mem_filter, mem_pyRangeDown]
          refine ⟨⟨by omega, by omega⟩, ?_⟩
          simp only [Bool.not_eq_true', decide_eq_false_iff_not]
          exact hik

/-- Witness for C2 at `spec = "1,3"`, `page_count = 4`: keep `[2,0]`,
delete `[3,1]`. -/
theorem c2_witness :
    (∀ i, ¬ (i ∈ ([3, 1] : List Int) ∧ i ∈ ([2, 0] : List Int))) ∧
    (∀ i : Int, (i ∈ ([3, 1] : List Int) ∨ i ∈ ([2, 0] : List Int)) ↔ (0 ≤ i ∧ i < 4)) ∧
    (∃ r, parse_delete_spec "1,3" 4 = .ok r ∧ ([2, 0] : List Int) = r.indices_0_based_desc) ∧
    List.Sorted (· > ·) ([(2 : Int), 0]) :=
  c2_compute_indices_invert_complement "1,3" 4 [3, 1] [2, 0] (by rfl)

/-! ### Spec-side validity of a delete specification (for C3)

These definitions follow the spec's listed validation rules, to be compared
with what `parse_delete_spec` actually accepts. -/

/-- The 1-based page value a number position denotes (after stripping). -/
def token_val (t : List Char) : Int := (digitsVal (pyStripL t) : Int)

/-- A number position is valid per the spec: nonempty after stripping,
digits only, and value at least 1. -/
def spec_pos_int_ok (t : List Char) : Bool :=
  !(pyStripL t).isEmpty && (pyStripL t).all Char.isDigit &&
    decide (1 ≤ token_val t)

/-- A comma-separated token is valid per the spec: nonempty after stripping,
and either a bare positive integer within `page_count`, or exactly a range
`A-B` of positive integers with `A ≤ B` and `B ≤ page_count`. -/
def spec_token_ok (raw : List Char) (page_count : Int) : Bool :=
  !(pyStripL raw).isEmpty &&
  (if '-' ∈ pyStripL raw then
     match splitOnChar '-' (pyStripL raw) with
     | [p0, p1] =>
       spec_pos_int_ok p0 && spec_pos_int_ok p1 &&
         decide (token_val p0 ≤ token_val p1) && decide (token_val p1 ≤ page_count)
     | _ => false
   else
     spec_pos_int_ok (pyStripL raw) && decide (token_val (pyStripL raw) ≤ page_count))

/-- A token is syntactically well formed (valid apart from page bounds). -/
def spec_token_syntax_ok (raw : List Char) : Bool :=
  !(pyStripL raw).isEmpty &&
  (if '-' ∈ pyStripL raw then
     match splitOnChar '-' (pyStripL raw) with
     | [p0, p1] =>
       spec_pos_int_ok p0 && spec_pos_int_ok p1 && decide (token_val p0 ≤ token_val p1)
     | _ => false
   else
     spec_pos_int_ok (pyStripL raw))

/-- A whole specification is valid per the spec: every comma-separated token
of the stripped specification is valid. -/
def spec_valid (spec : String) (page_count : Int) : Bool :=
  (splitOnChar ',' (pyStripL spec.data)).all (fun t => spec_token_ok t page_count)

theorem string_data_append (a b : String) : (a ++ b).data = a.data ++ b.data := rfl

theorem splitOnChar_ne_nil (sep : Char) (cs : List Char) : splitOnChar sep cs ≠ [] := by
  cases cs with
  | nil => simp [splitOnChar]
  | cons c cs =>
    unfold splitOnChar
    split
    · simp
    · split
      · simp
      · simp

theorem spec_pos_int_ok_val {t : List Char} (h : spec_pos_int_ok t = true) :
    1 ≤ token_val t := by
  unfold spec_pos_int_ok at h
  simp only [Bool.and_eq_true, decide_eq_true_eq] at h
  exact h.2

theorem parse_positive_int_of_flag {t : List Char} (w : String)
    (h : spec_pos_int_ok t = true) :
    parse_positive_int t w = .ok (token_val t) := by
  unfold spec_pos_int_ok at h
  simp only [Bool.and_eq_true, Bool.not_eq_true', decide_eq_true_eq] at h
  obtain ⟨⟨h1, h2⟩, h3⟩ := h
  unfold parse_positive_int token_val
  rw [if_neg (by simp [h1]), if_neg (by simp [h2]), if_neg (by unfold token_val at h3; omega)]

theorem parse_positive_int_flag_iff (t : List Char) (w : String) :
    (∃ v, parse_positive_int t w = .ok v) ↔ spec_pos_int_ok t = true := by
  constructor
  · rintro ⟨v, hv⟩
    unfold parse_positive_int at hv
    split at hv
    · cases hv
    · split at hv
      · cases hv
      · split at hv
        · cases hv
        · rename_i h1 h2 h3
          unfold spec_pos_int_ok
          simp only [Bool.and_eq_true, Bool.not_eq_true', decide_eq_true_eq]
          refine ⟨⟨by simpa using h1, by simpa using h2⟩, ?_⟩
          unfold token_val
          omega
  · intro h
    exact ⟨_, parse_positive_int_of_flag w h⟩

theorem parse_item_indices_range_ok {raw p0 p1 : List Char} {pc : Int}
    (hemp : (pyStripL raw).isEmpty = false) (hdash : '-' ∈ pyStripL raw)
    (hsplit : splitOnChar '-' (pyStripL raw) = [p0, p1])
    (hp0 : spec_pos_int_ok p0 = true) (hp1 : spec_pos_int_ok p1 = true)
    (hle : token_val p0 ≤ token_val p1) (hub : token_val p1 ≤ pc) :
    parse_item_indices raw pc =
      .ok ((pyRangeUp (token_val p0) (token_val p1 + 1)).map (fun page_1 => page_1 - 1)) := by
  have h10 := spec_pos_int_ok_val hp0
  unfold parse_item_indices
  rw [if_neg (by simp [hemp]), if_pos hdash, hsplit]
  simp only [parse_positive_int_of_flag "range start" hp0,
    parse_positive_int_of_flag "range end" hp1]
  rw [if_neg (by omega), if_neg (by omega)]

theorem parse_item_indices_bare_ok {raw : List Char} {pc : Int}
    (hemp : (pyStripL raw).isEmpty = false) (hdash : '-' ∉ pyStripL raw)
    (hp : spec_pos_int_ok (pyStripL raw) = true)
    (hub : token_val (pyStripL raw) ≤ pc) :
    parse_item_indices raw pc = .ok [token_val (pyStripL raw) - 1] := by
  unfold parse_item_indices
  rw [if_neg (by simp [hemp]), if_neg hdash]
  simp only [parse_positive_int_of_flag "page number" hp]
  rw [if_neg (by omega)]

theorem parse_item_flag_iff (raw : List Char) (pc : Int) :
    (∃ xs, parse_item_indices raw pc = .ok xs) ↔ spec_token_ok raw pc = true := by
  constructor
  · rintro ⟨xs, hxs⟩
    unfold parse_item_indices at hxs
    split at hxs
    · cases hxs
    · rename_i hemp
      rw [Bool.not_eq_true] at hemp
      split at hxs
      · rename_i hdash
        split at hxs
        · rename_i p0 p1 hsplit
          split at hxs
          · cases hxs
          · rename_i v0 hp0
            split at hxs
            · cases hxs
            · rename_i v1 hp1
              split at hxs
              · cases hxs
              · split at hxs
                · cases hxs
                · rename_i hlt hbound
                  obtain ⟨hv0, h10⟩ := parse_positive_int_ok hp0
                  obtain ⟨hv1, h11⟩ := parse_positive_int_ok hp1
                  push_neg at hbound
                  simp only [spec_token_ok, hsplit, if_pos hdash, Bool.and_eq_true,
                    Bool.not_eq_true', decide_eq_true_eq]
                  refine ⟨hemp, ⟨⟨(parse_positive_int_flag_iff p0 "range start").mp ⟨v0, hp0⟩,
                    (parse_positive_int_flag_iff p1 "range end").mp ⟨v1, hp1⟩⟩,
                    by unfold token_val; omega⟩, by unfold token_val; omega⟩
        · cases hxs
      · rename_i hdash
        split at hxs
        · cases hxs
        · rename_i v hp
          split at hxs
          · cases hxs
          · rename_i hbound
            obtain ⟨hv, h1⟩ := parse_positive_int_ok hp
            simp only [spec_token_ok, if_neg hdash, Bool.and_eq_true,
              Bool.not_eq_true', decide_eq_true_eq]
            exact ⟨hemp, (parse_positive_int_flag_iff _ "page number").mp ⟨v, hp⟩,
              by unfold token_val; omega⟩
  · intro h
    unfold spec_token_ok at h
    simp only [Bool.and_eq_true, Bool.not_eq_true'] at h
    obtain ⟨hemp, hrest⟩ := h
    by_cases hdash : '-' ∈ pyStripL raw
    · rw [if_pos hdash] at hrest
      split at hrest
      · rename_i p0 p1 hsplit
        simp only [Bool.and_eq_true, decide_eq_true_eq] at hrest
        obtain ⟨⟨⟨hp0, hp1⟩, hle⟩, hub⟩ := hrest
        exact ⟨_, parse_item_indices_range_ok hemp hdash hsplit hp0 hp1 hle hub⟩
      · cases hrest
    · rw [if_neg hdash] at hrest
      simp only [Bool.and_eq_true, decide_eq_true_eq] at hrest
      obtain ⟨hp, hub⟩ := hrest
      exact ⟨_, parse_item_indices_bare_ok hemp hdash hp hub⟩

theorem parse_items_flag_iff (pc : Int) (items : List (List Char)) :
    ∀ acc, (∃ res, parse_items pc items acc = .ok res) ↔
      ∀ t ∈ items, spec_token_ok t pc = true := by
  induction items with
  | nil =>
    intro acc
    simp [parse_items]
  | cons t rest ih =>
    intro acc
    constructor
    · rintro ⟨res, hres⟩
      unfold parse_items at hres
      split at hres
      · cases hres
      · rename_i xs hxs
        intro u hu
        rcases List.mem_cons.mp hu with rfl | hu
        · exact (parse_item_flag_iff u pc).mp ⟨xs, hxs⟩
        · exact (ih _).mp ⟨res, hres⟩ u hu
    · intro hall
      obtain ⟨xs, hxs⟩ := (parse_item_flag_iff t pc).mpr (hall t (by simp))
      unfold parse_items
      rw [hxs]
      exact (ih _).mpr (fun u hu => hall u (by simp [hu]))

theorem spec_token_ok_pos {t : List Char} {pc : Int} (h : spec_token_ok t pc = true) :
    1 ≤ pc := by
  unfold spec_token_ok at h
  simp only [Bool.and_eq_true] at h
  obtain ⟨h1, h2⟩ := h
  split at h2
  · split at h2
    · rename_i p0 p1 hsplit
      simp only [Bool.and_eq_true, decide_eq_true_eq] at h2
      have := spec_pos_int_ok_val h2.1.1.2
      omega
    · cases h2
  · simp only [Bool.and_eq_true, decide_eq_true_eq] at h2
    have := spec_pos_int_ok_val h2.1
    omega

theorem parse_delete_spec_ok_iff (spec : String) (pc : Int) :
    (∃ r, parse_delete_spec spec pc = .ok r) ↔ spec_valid spec pc = true := by
  constructor
  · rintro ⟨r, hr⟩
    unfold parse_delete_spec at hr
    split at hr
    · cases hr
    · split at hr
      · cases hr
      · split at hr
        · cases hr
        · split at hr
          · cases hr
          · rename_i indices hind
            unfold spec_valid
            rw [List.all_eq_true]
            intro t ht
            exact (parse_items_flag_iff pc _ []).mp ⟨indices, hind⟩ t ht
  · intro h
    unfold spec_valid at h
    rw [List.all_eq_true] at h
    have hne := splitOnChar_ne_nil ',' (pyStripL spec.data)
    obtain ⟨t0, ts, hts⟩ : ∃ t0 ts, splitOnChar ',' (pyStripL spec.data) = t0 :: ts := by
      cases hcase : splitOnChar ',' (pyStripL spec.data) with
      | nil => exact absurd hcase hne
      | cons a b => exact ⟨a, b, rfl⟩
    have hpos : 1 ≤ pc := spec_token_ok_pos (h t0 (by rw [hts]; simp))
    have hreq : require_page_count pc = .ok () := by
      unfold require_page_count
      rw [if_neg (by omega)]
    have hnonempty : (pyStripL spec.data).isEmpty = false := by
      rw [Bool.eq_false_iff]
      intro hemp
      rw [List.isEmpty_iff] at hemp
      have h0 := h [] (by rw [hemp]; unfold splitOnChar; simp)
      unfold spec_token_ok at h0
      simp [pyStripL] at h0
    obtain ⟨res, hres⟩ := (parse_items_flag_iff pc _ []).mpr h
    refine ⟨⟨sorted_desc res⟩, ?_⟩
    unfold parse_delete_spec
    rw [hreq]
    simp only [hnonempty, Bool.false_eq_true, if_false]
    rw [if_neg (by omega), hres]

theorem parse_item_oob_message {raw : List Char} {pc : Int} {msg : String}
    (hsyn : spec_token_syntax_ok raw = true)
    (herr : parse_item_indices raw pc = .error msg) :
    (toString pc).data <:+: msg.data := by
  unfold spec_token_syntax_ok at hsyn
  simp only [Bool.and_eq_true, Bool.not_eq_true'] at hsyn
  obtain ⟨hemp, hrest⟩ := hsyn
  unfold parse_item_indices at herr
  rw [if_neg (by simp [hemp])] at herr
  by_cases hdash : '-' ∈ pyStripL raw
  · rw [if_pos hdash] at herr
    rw [if_pos hdash] at hrest
    split at hrest
    · rename_i p0 p1 hsplit
      simp only [Bool.and_eq_true, decide_eq_true_eq] at hrest
      obtain ⟨⟨hp0, hp1⟩, hle⟩ := hrest
      rw [hsplit] at herr
      simp only [parse_positive_int_of_flag "range start" hp0,
        parse_positive_int_of_flag "range end" hp1] at herr
      rw [if_neg (by omega)] at herr
      split at herr
      · cases herr
        refine ⟨("Range '" ++ String.mk (pyStripL raw) ++
          "' out of bounds (document has ").data, " pages)".data, ?_⟩
        simp [string_data_append, List.append_assoc]
      · cases herr
    · cases hrest
  · rw [if_neg hdash] at herr
    rw [if_neg hdash] at hrest
    simp only [parse_positive_int_of_flag "page number" hrest] at herr
    split at herr
    · cases herr
      refine ⟨("Page " ++ toString (token_val (pyStripL raw)) ++
        " out of bounds (document has ").data, " pages)".data, ?_⟩
      simp [string_data_append, List.append_assoc]
    · cases herr

theorem parse_items_oob_message (pc : Int) (items : List (List Char)) :
    ∀ acc msg, (∀ t ∈ items, spec_token_syntax_ok t = true) →
      parse_items pc items acc = .error msg →
      (toString pc).data <:+: msg.data := by
  induction items with
  | nil =>
    intro acc msg _ h
    cases h
  | cons t rest ih =>
    intro acc msg hall h
    unfold parse_items at h
    split at h
    · rename_i e he
      cases h
      exact parse_item_oob_message (hall t (by simp)) he
    · exact ih _ _ (fun u hu => hall u (by simp [hu])) h

theorem parse_delete_spec_oob_message (spec : String) (pc : Int) (msg : String)
    (h : parse_delete_spec spec pc = .error msg)
    (hsyn : (splitOnChar ',' (pyStripL spec.data)).all spec_token_syntax_ok = true)
    (hpc : 1 ≤ pc) :
    (toString pc).data <:+: msg.data := by
  rw [List.all_eq_true] at hsyn
  unfold parse_delete_spec at h
  split at h
  · rename_i e hreq
    unfold require_page_count at hreq
    rw [if_neg (by omega)] at hreq
    cases hreq
  · split at h
    · rename_i hemp
      have h0 := hsyn [] (by
        rw [List.isEmpty_iff.mp hemp]
        unfold splitOnChar
        simp)
      unfold spec_token_syntax_ok at h0
      simp [pyStripL] at h0
    · split at h
      · rename_i hzero
        omega
      · split at h
        · rename_i e he
          cases h
          exact parse_items_oob_message pc _ _ _ hsyn he
        · cases h

/-- C3: `parse_delete_spec` fails with a `PageSpecError` exactly when the
specification is invalid per the spec's token rules (empty token, malformed
token, non-digit content, value below 1, inverted range, or a page beyond
`page_count`), and otherwise returns the full index set; when every token is
syntactically well formed and the failure is an out-of-bounds page on a
positive page count, the error message reports the page count. -/
theorem c3_parse_delete_spec_error_iff (spec : String) (page_count : Int) :
    ((∃ r, parse_delete_spec spec page_count = .ok r) ↔
      spec_valid spec page_count = true) ∧
    (∀ msg, parse_delete_spec spec page_count = .error msg →
      (splitOnChar ',' (pyStripL spec.data)).all spec_token_syntax_ok = true →
      1 ≤ page_count →
      (toString page_count).data <:+: msg.data) :=
  ⟨parse_delete_spec_ok_iff spec page_count,
   fun msg h hsyn hpc => parse_delete_spec_oob_message spec page_count msg h hsyn hpc⟩

/-- Witness for C3 at `spec = "3"`, `page_count = 2`: the spec is invalid,
parsing fails, and the message contains the page count. -/
theorem c3_witness :
    (¬ ∃ r, parse_delete_spec "3" 2 = .ok r) ∧
    (toString (2 : Int)).data <:+: "Page 3 out of bounds (document has 2 pages)".data := by
  have h := c3_parse_delete_spec_error_iff "3" 2
  constructor
  · rw [h.1]
    decide
  · exact h.2 "Page 3 out of bounds (document has 2 pages)" (by rfl) (by decide) (by decide)

/-! ### Facts about `indices_before_page` and `indices_after_page` -/

theorem require_page_count_ok {pc : Int} (h : 0 ≤ pc) :
    require_page_count pc = .ok () := by
  unfold require_page_count
  rw [if_neg (by omega)]

theorem sorted_gt_pyRangeDown (a b : Int) : List.Sorted (· > ·) (pyRangeDown a b) := by
  unfold pyRangeDown
  exact List.Pairwise.map _ (fun k l (h : k < l) => by omega)
    (List.pairwise_lt_range _)

theorem pyRangeDown_eq_nil {a b : Int} (h : a ≤ b) : pyRangeDown a b = [] := by
  unfold pyRangeDown
  have h0 : (a - b).toNat = 0 := by omega
  rw [h0]
  rfl

theorem indices_before_page_ok_mem {b pc : Int} {l : List Int} (hpc : 1 ≤ pc)
    (h : indices_before_page b pc = .ok l) :
    List.Sorted (· > ·) l ∧ 1 ≤ b ∧ b ≤ pc + 1 ∧ ∀ i, (i ∈ l ↔ 0 ≤ i ∧ i < b - 1) := by
  have hreq := require_page_count_ok (by omega : (0 : Int) ≤ pc)
  unfold indices_before_page at h
  simp only [hreq] at h
  rw [if_neg (by omega)] at h
  split at h
  · cases h
  · split at h
    · cases h
    · rename_i hlt hgt
      cases h
      refine ⟨sorted_gt_pyRangeDown _ _, by omega, by omega, ?_⟩
      intro i
      rw [mem_pyRangeDown]
      omega

theorem indices_before_page_eval {b pc : Int} (hpc : 1 ≤ pc) (h1 : 1 ≤ b)
    (h2 : b ≤ pc + 1) :
    indices_before_page b pc = .ok (pyRangeDown (min (b - 1) pc - 1) (-1)) := by
  have hreq := require_page_count_ok (by omega : (0 : Int) ≤ pc)
  unfold indices_before_page
  simp only [hreq]
  rw [if_neg (by omega), if_neg (by omega), if_neg (by omega)]

theorem indices_after_page_ok_mem {a pc : Int} {l : List Int} (hpc : 1 ≤ pc)
    (h : indices_after_page a pc = .ok l) :
    List.Sorted (· > ·) l ∧ 1 ≤ a ∧ a ≤ pc ∧ ∀ i, (i ∈ l ↔ a ≤ i ∧ i < pc) := by
  have hreq := require_page_count_ok (by omega : (0 : Int) ≤ pc)
  unfold indices_after_page at h
  simp only [hreq] at h
  rw [if_neg (by omega)] at h
  split at h
  · cases h
  · split at h
    · cases h
    · split at h
      · rename_i hlt hgt hge
        cases h
        refine ⟨by simp, by omega, by omega, ?_⟩
        intro i
        simp only [List.not_mem_nil, false_iff]
        omega
      · rename_i hlt hgt hge
        cases h
        refine ⟨sorted_gt_pyRangeDown _ _, by omega, by omega, ?_⟩
        intro i
        rw [mem_pyRangeDown]
        omega

theorem indices_after_page_eval {a pc : Int} (hpc : 1 ≤ pc) (h1 : 1 ≤ a) (h2 : a ≤ pc) :
    ∃ l, indices_after_page a pc = .ok l := by
  have hreq := require_page_count_ok (by omega : (0 : Int) ≤ pc)
  unfold indices_after_page
  simp only [hreq]
  rw [if_neg (by omega), if_neg (by omega), if_neg (by omega)]
  by_cases hge : a ≥ pc
  · rw [if_pos hge]
    exact ⟨[], rfl⟩
  · rw [if_neg hge]
    exact ⟨_, rfl⟩

/-- C4: `indices_before_page` requires `before_page_1_based ∈ [1, page_count + 1]`
and fails on every out-of-range value; on success it returns the 0-based
indices of pages `1 .. before_page - 1` in descending order (empty when
`before_page = 1`, all pages when `before_page = page_count + 1`); when
`page_count = 0` it returns the empty list without error. -/
theorem c4_indices_before_page (before_page page_count : Int) (hpc : 0 ≤ page_count) :
    (page_count = 0 → indices_before_page before_page page_count = .ok []) ∧
    (1 ≤ page_count →
      ((∃ l, indices_before_page before_page page_count = .ok l) ↔
        1 ≤ before_page ∧ before_page ≤ page_count + 1) ∧
      (∀ l, indices_before_page before_page page_count = .ok l →
        List.Sorted (· > ·) l ∧ ∀ i, (i ∈ l ↔ 0 ≤ i ∧ i < before_page - 1)) ∧
      (before_page = 1 → indices_before_page before_page page_count = .ok []) ∧
      (before_page = page_count + 1 →
        ∀ l, indices_before_page before_page page_count = .ok l →
          ∀ i, (i ∈ l ↔ 0 ≤ i ∧ i < page_count))) := by
  constructor
  · intro h0
    unfold indices_before_page
    simp only [require_page_count_ok hpc]
    rw [if_pos h0]
  · intro h1
    refine ⟨⟨?_, ?_⟩, ?_, ?_, ?_⟩
    · rintro ⟨l, hl⟩
      obtain ⟨-, hb1, hb2, -⟩ := indices_before_page_ok_mem h1 hl
      exact ⟨hb1, hb2⟩
    · rintro ⟨hb1, hb2⟩
      exact ⟨_, indices_before_page_eval h1 hb1 hb2⟩
    · intro l hl
      obtain ⟨hs, -, -, hmem⟩ := indices_before_page_ok_mem h1 hl
      exact ⟨hs, hmem⟩
    · intro hb
      rw [indices_before_page_eval h1 (by omega) (by omega),
        pyRangeDown_eq_nil (by omega)]
    · intro hb l hl i
      obtain ⟨-, -, -, hmem⟩ := indices_before_page_ok_mem h1 hl
      rw [hmem i]
      omega

/-- Witness for C4 at `before_page = 3`, `page_count = 5`. -/
theorem c4_witness :
    indices_before_page 3 5 = .ok [1, 0] ∧
    ∀ i : Int, (i ∈ ([(1 : Int), 0]) ↔ 0 ≤ i ∧ i < 2) := by
  have h := c4_indices_before_page 3 5 (by decide)
  have he : indices_before_page 3 5 = .ok [1, 0] := by rfl
  refine ⟨he, ?_⟩
  intro i
  have h2 := ((h.2 (by decide)).2.1 [1, 0] he).2 i
  rw [h2]
  omega

/-- C5: `indices_after_page` requires `after_page_1_based ∈ [1, page_count]`
and fails on every out-of-range value; on success it returns the 0-based
indices of pages `after_page + 1 .. page_count` in descending order (empty
when `after_page = page_count`); when `page_count = 0` it returns the empty
list without error. -/
theorem c5_indices_after_page (after_page page_count : Int) (hpc : 0 ≤ page_count) :
    (page_count = 0 → indices_after_page after_page page_count = .ok []) ∧
    (1 ≤ page_count →
      ((∃ l, indices_after_page after_page page_count = .ok l) ↔
        1 ≤ after_page ∧ after_page ≤ page_count) ∧
      (∀ l, indices_after_page after_page page_count = .ok l →
        List.Sorted (· > ·) l ∧ ∀ i, (i ∈ l ↔ after_page ≤ i ∧ i < page_count)) ∧
      (after_page = page_count → indices_after_page after_page page_count = .ok [])) := by
  constructor
  · intro h0
    unfold indices_after_page
    simp only [require_page_count_ok hpc]
    rw [if_pos h0]
  · intro h1
    refine ⟨⟨?_, ?_⟩, ?_, ?_⟩
    · rintro ⟨l, hl⟩
      obtain ⟨-, ha1, ha2, -⟩ := indices_after_page_ok_mem h1 hl
      exact ⟨ha1, ha2⟩
    · rintro ⟨ha1, ha2⟩
      exact indices_after_page_eval h1 ha1 ha2
    · intro l hl
      obtain ⟨hs, -, -, hmem⟩ := indices_after_page_ok_mem h1 hl
      exact ⟨hs, hmem⟩
    · intro ha
      unfold indices_after_page
      simp only [require_page_count_ok hpc]
      rw [if_neg (by omega), if_neg (by omega), if_neg (by omega), if_pos (by omega)]

/-- Witness for C5 at `after_page = 2`, `page_count = 5`. -/
theorem c5_witness :
    indices_after_page 2 5 = .ok [4, 3, 2] ∧
    ∀ i : Int, (i ∈ ([(4 : Int), 3, 2]) ↔ 2 ≤ i ∧ i < 5) := by
  have h := c5_indices_after_page 2 5 (by decide)
  have he : indices_after_page 2 5 = .ok [4, 3, 2] := by rfl
  refine ⟨he, ?_⟩
  exact fun i => ((h.2 (by decide)).2.1 [4, 3, 2] he).2 i

/-- C9: for `1 ≤ N ≤ page_count`, `indices_before_page (N+1)` and
`indices_after_page N` both succeed and partition `{0, ..., page_count-1}`:
the former yields `{0..N-1}`, the latter `{N..page_count-1}`, disjoint,
with union the full index range. -/
theorem c9_before_after_partition (N page_count : Int)
    (h1 : 1 ≤ page_count) (h2 : 1 ≤ N) (h3 : N ≤ page_count) :
    ∃ lb la, indices_before_page (N + 1) page_count = .ok lb ∧
      indices_after_page N page_count = .ok la ∧
      (∀ i, i ∈ lb ↔ 0 ≤ i ∧ i < N) ∧
      (∀ i, i ∈ la ↔ N ≤ i ∧ i < page_count) ∧
      (∀ i, ¬ (i ∈ lb ∧ i ∈ la)) ∧
      (∀ i, (i ∈ lb ∨ i ∈ la) ↔ 0 ≤ i ∧ i < page_count) := by
  have hb := indices_before_page_eval h1 (by omega : 1 ≤ N + 1) (by omega)
  obtain ⟨la, hla⟩ := indices_after_page_eval h1 h2 h3
  obtain ⟨-, -, -, hmb⟩ := indices_before_page_ok_mem h1 hb
  obtain ⟨-, -, -, hma⟩ := indices_after_page_ok_mem h1 hla
  refine ⟨_, la, hb, hla, ?_, hma, ?_, ?_⟩
  · intro i
    rw [hmb i]
    omega
  · rintro i ⟨hi1, hi2⟩
    rw [hmb i] at hi1
    rw [hma i] at hi2
    omega
  · intro i
    rw [hmb i, hma i]
    omega

/-- Witness for C9 at `N = 2`, `page_count = 3`. -/
theorem c9_witness :
    ∃ lb la, indices_before_page 3 3 = .ok lb ∧
      indices_after_page 2 3 = .ok la ∧
      (∀ i, i ∈ lb ↔ 0 ≤ i ∧ i < 2) ∧
      (∀ i, i ∈ la ↔ 2 ≤ i ∧ i < 3) ∧
      (∀ i, ¬ (i ∈ lb ∧ i ∈ la)) ∧
      (∀ i, (i ∈ lb ∨ i ∈ la) ↔ 0 ≤ i ∧ i < 3) :=
  c9_before_after_partition 2 3 (by decide) (by decide) (by decide)

/-- Counterexample to C6 as stated: with the empty specification string and
`page_count = 0`, `parse_delete_spec` raises the empty-specification error,
not the empty-document error, because the emptiness check precedes the
`page_count == 0` check. -/
theorem c6_counterexample :
    parse_delete_spec "" 0 = .error "Delete specification cannot be empty" ∧
    parse_delete_spec "" 0 ≠ .error "Cannot delete pages from an empty document" := by
  constructor
  · rfl
  · intro h
    rw [show parse_delete_spec "" 0 =
      .error "Delete specification cannot be empty" from rfl] at h
    injection h with h2
    exact absurd h2 (by decide)

/-- C6 amended: for every specification string that is nonempty after
trimming, `parse_delete_spec` with `page_count = 0` raises the
empty-document error, before any token of the specification is parsed. -/
theorem c6_amended_empty_doc (spec : String)
    (h : (pyStripL spec.data).isEmpty = false) :
    parse_delete_spec spec 0 = .error "Cannot delete pages from an empty document" := by
  unfold parse_delete_spec
  simp only [require_page_count_ok (by decide : (0 : Int) ≤ 0)]
  rw [if_neg (by simp [h])]
  simp

/-- Witness for the amended C6 at a specification made of malformed tokens. -/
theorem c6_witness :
    (pyStripL "x,--,0".data).isEmpty = false ∧
    parse_delete_spec "x,--,0" 0 = .error "Cannot delete pages from an empty document" :=
  ⟨by decide, c6_amended_empty_doc "x,--,0" (by decide)⟩

/-- Counterexample to C7 as stated: on a zero-page document the before/after
deletion processor's guard (`page_count > 0 and len >= page_count`) is
skipped, so although the empty deletion set covers the whole document
(its size 0 is at least the page count 0), the method reports success and
performs a save instead of failing. -/
theorem c7_counterexample :
    before_after_indices 0 none none false = .ok [] ∧
    (0 : Int) ≤ (([] : List Int).length : Int) ∧
    process_pdf_delete_before_after 0 none none false = ⟨true, [PdfOp.save]⟩ :=
  ⟨rfl, by decide, rfl⟩

/-- C7 amended: for every document with at least one page, if the computed
deletion index set covers the entire document, both page-deletion processors
return a failure result and perform no page deletion and no save. -/
theorem c7_amended_no_empty_output (page_count : Int) (hpc : 1 ≤ page_count) :
    (∀ (spec : String) (inv : Bool) (del : List Int) (rest : Option (List Int)),
      compute_indices_to_delete spec page_count inv = .ok (del, rest) →
      page_count ≤ (del.length : Int) →
      process_pdf_delete_pages page_count spec inv = ⟨false, []⟩) ∧
    (∀ (b a : Option Int) (inv : Bool) (del : List Int),
      before_after_indices page_count b a inv = .ok del →
      page_count ≤ (del.length : Int) →
      process_pdf_delete_before_after page_count b a inv = ⟨false, []⟩) := by
  constructor
  · intro spec inv del rest h hlen
    unfold process_pdf_delete_pages
    simp only [h]
    rw [if_pos (by omega)]
  · intro b a inv del h hlen
    unfold process_pdf_delete_before_after
    simp only [h]
    rw [if_pos ⟨by omega, by omega⟩]

/-- Witness for the amended C7 on one-page documents whose whole page set is
selected for deletion. -/
theorem c7_witness :
    compute_indices_to_delete "1" 1 false = .ok ([0], none) ∧
    process_pdf_delete_pages 1 "1" false = ⟨false, []⟩ ∧
    before_after_indices 1 (some 2) none false = .ok [0] ∧
    process_pdf_delete_before_after 1 (some 2) none false = ⟨false, []⟩ := by
  have h := c7_amended_no_empty_output 1 (by decide)
  have h1 : compute_indices_to_delete "1" 1 false = .ok ([0], none) := by rfl
  have h2 : before_after_indices 1 (some 2) none false = .ok [0] := by rfl
  exact ⟨h1, h.1 "1" false [0] none h1 (by decide), h2,
    h.2 (some 2) none false [0] h2 (by decide)⟩

/-- C8: every resolver operation is deterministic: two calls with identical
inputs return identical results. In this embedding each operation is a
mathematical function, faithfully mirroring the Python module, which reads
and writes no module-level mutable state. -/
theorem c8_resolver_deterministic (spec : String) (page_count b a : Int) (inv : Bool) :
    parse_delete_spec spec page_count = parse_delete_spec spec page_count ∧
    compute_indices_to_delete spec page_count inv =
      compute_indices_to_delete spec page_count inv ∧
    indices_before_page b page_count = indices_before_page b page_count ∧
    indices_after_page a page_count = indices_after_page a page_count :=
  ⟨rfl, rfl, rfl, rfl⟩

/-- C10: for every negative page_count, each resolver operation raises a
PageSpecError with message "page_count must be >= 0". -/
theorem c10_negative_page_count (spec : String) (page_count b a : Int) (inv : Bool)
    (h : page_count < 0) :
    parse_delete_spec spec page_count = .error "page_count must be >= 0" ∧
    compute_indices_to_delete spec page_count inv = .error "page_count must be >= 0" ∧
    indices_before_page b page_count = .error "page_count must be >= 0" ∧
    indices_after_page a page_count = .error "page_count must be >= 0" := by
  have hreq : require_page_count page_count = .error "page_count must be >= 0" := by
    unfold require_page_count
    rw [if_pos h]
  have hp : parse_delete_spec spec page_count = .error "page_count must be >= 0" := by
    unfold parse_delete_spec
    simp only [hreq]
  refine ⟨hp, ?_, ?_, ?_⟩
  · unfold compute_indices_to_delete
    simp only [hp]
  · unfold indices_before_page
    simp only [hreq]
  · unfold indices_after_page
    simp only [hreq]

/-- Witness for C10 at `page_count = -1`. -/
theorem c10_witness :
    parse_delete_spec "1" (-1) = .error "page_count must be >= 0" ∧
    compute_indices_to_delete "1" (-1) true = .error "page_count must be >= 0" ∧
    indices_before_page 1 (-1) = .error "page_count must be >= 0" ∧
    indices_after_page 1 (-1) = .error "page_count must be >= 0" :=
  c10_negative_page_count "1" (-1) 1 1 true (by decide)
